import Mathlib

/-!
Shallow embedding of the star-geometry core of `src/main.rs` (the `sv_logo`
generator).  The `f32` arithmetic of the source is modelled by exact real
arithmetic; `ultraviolet`'s `Rotor2::from_angle(a) * v` is the standard
counter-clockwise rotation matrix applied to `v`; Rust's unsigned
`spokes - 1` is modelled with release-mode wrap-around semantics; the Rust
panic `i % 0` (remainder by zero on an empty colour palette) is modelled by
`Option`, with `none` standing for the panic.
-/

namespace SvLogo

/-- A 2D vector, mirroring `ultraviolet::Vec2` with `f32` fields modelled as reals. -/
structure Vec2 where
  x : ℝ
  y : ℝ

/-- Component-wise addition, mirroring `Vec2: Add`. -/
def Vec2.add (a b : Vec2) : Vec2 := ⟨a.x + b.x, a.y + b.y⟩

/-- Component-wise subtraction, mirroring `Vec2: Sub`. -/
def Vec2.sub (a b : Vec2) : Vec2 := ⟨a.x - b.x, a.y - b.y⟩

/-- Component-wise negation, mirroring `-v` on `Vec2`. -/
def Vec2.neg (a : Vec2) : Vec2 := ⟨-a.x, -a.y⟩

/-- Euclidean magnitude of a vector (the `|v|` of the spec's rotation invariant). -/
noncomputable def Vec2.mag (v : Vec2) : ℝ := Real.sqrt (v.x ^ 2 + v.y ^ 2)

/-- `Rotor2::from_angle(theta) * v`: counter-clockwise rotation of `v` by `theta`
(the net effect of ultraviolet's rotor sandwich product on a 2D vector). -/
noncomputable def rotorApply (theta : ℝ) (v : Vec2) : Vec2 :=
  ⟨Real.cos theta * v.x - Real.sin theta * v.y,
   Real.sin theta * v.x + Real.cos theta * v.y⟩

/-- Rust `spokes - 1` on `u32` with release-mode wrap-around semantics:
`(n + (2^32 - 1)) % 2^32`, which is `n - 1` for `1 ≤ n < 2^32` and `2^32 - 1` at `n = 0`. -/
def u32Sub1 (n : ℕ) : ℕ := (n + 4294967295) % 4294967296

/-- Rust `spokes - 1` on 64-bit `usize` with release-mode wrap-around semantics. -/
def usizeSub1 (n : ℕ) : ℕ := (n + 18446744073709551615) % 18446744073709551616

/-- The inline inner-radius block shared verbatim by `make_star` (lines 19-25) and
`make_segmented_star` (lines 60-66): the y-intercept of the chord through the two
outer points `pos_0 = rotate(outer_pos_start, angle)` and
`pos_1 = rotate(outer_pos_start, angle * (spokes - 1) / -2)`.
`spokesM1` is the already-cast value of `(spokes - 1) as f32`. -/
noncomputable def chordInnerRadius (angle spokesM1 : ℝ) (outer_pos_start : Vec2) : ℝ :=
  let pos_0 := rotorApply angle outer_pos_start
  let pos_1 := rotorApply (angle * spokesM1 / -2) outer_pos_start
  let diff := pos_0.sub pos_1
  let slope := diff.y / diff.x
  pos_0.y - slope * pos_0.x

/-- The inner-radius solver as invoked by `make_star`: `angle = -TAU / spokes`,
`outer_pos_start = (0, outer_radius)`, and `spokes - 1` on `u32`. -/
noncomputable def solveInnerRadius (outer_radius : ℝ) (spokes : ℕ) : ℝ :=
  let angle := -(2 * Real.pi) / (spokes : ℝ)
  chordInnerRadius angle ((u32Sub1 spokes : ℕ) : ℝ) ⟨0, outer_radius⟩

/-- Interleaving `[f 0, g 0, f 1, g 1, ..., f (n-1), g (n-1)]`: the shape of the
`for i in 0..spokes` loop that pushes an outer then an inner vertex per spoke. -/
def pairRing (f g : ℕ → Vec2) (n : ℕ) : List Vec2 :=
  (List.range n).bind fun i => [f i, g i]

/-- The vertex ring loop shared verbatim by both generators (lines 29-34 and 70-75):
for each `i`, push `rotate(-outer_pos_start, angle * i) + center` then
`rotate(inner_pos_start, angle * i + angle / 2) + center`. -/
noncomputable def ringPoints (center : Vec2) (angle : ℝ)
    (outer_pos_start inner_pos_start : Vec2) (spokes : ℕ) : List Vec2 :=
  pairRing
    (fun i => (rotorApply (angle * (i : ℝ)) outer_pos_start.neg).add center)
    (fun i => (rotorApply (angle * (i : ℝ) + angle / 2) inner_pos_start).add center)
    spokes

/-- The vertex ring as built by `make_star`: the multiplier is applied to the solved
inner radius when forming `inner_pos_start` (`inner_radius * inner_radius_multiplier`). -/
noncomputable def makeStarRing (center : Vec2)
    (outer_radius inner_radius_multiplier : ℝ) (spokes : ℕ) : List Vec2 :=
  let angle := -(2 * Real.pi) / (spokes : ℝ)
  let outer_pos_start : Vec2 := ⟨0, outer_radius⟩
  let inner_pos_start : Vec2 :=
    ⟨0, solveInnerRadius outer_radius spokes * inner_radius_multiplier⟩
  ringPoints center angle outer_pos_start inner_pos_start spokes

/-- One SVG path-data command, mirroring `svg::node::element::path::Command`
as used by the source (`move_to`, `line_to`, `close`). -/
inductive PathCmd where
  | moveTo (x y : ℝ)
  | lineTo (x y : ℝ)
  | close

/-- An SVG `Path` element as populated by the source: a fill, a stroke and path data. -/
structure SvgPath where
  fill : String
  stroke : String
  d : List PathCmd

/-- The path-data construction of `make_star` (lines 36-43): `move_to` the first
point if any, `line_to` every later point, then `close`. -/
def pathData (points : List Vec2) : List PathCmd :=
  (match points with
   | [] => []
   | p :: _ => [PathCmd.moveTo p.x p.y]) ++
  ((points.drop 1).map fun p => PathCmd.lineTo p.x p.y) ++ [PathCmd.close]

/-- `make_star` (lines 10-49): the outline generator. -/
noncomputable def makeStar (center : Vec2) (outer_radius inner_radius_multiplier : ℝ)
    (spokes : ℕ) (color : String) : SvgPath :=
  { fill := color
    stroke := "none"
    d := pathData (makeStarRing center outer_radius inner_radius_multiplier spokes) }

/-- The body of the triangle-pairing loop of `make_segmented_star` (lines 81-88):
`prev` is the running `previous`, `i` the `enumerate` index over `points[1..]`. -/
def loopTris (prev : Vec2) (i : ℕ) (rest : List Vec2) : List (Vec2 × Vec2) :=
  match rest with
  | [] => []
  | p :: ps => (if i % 2 = 1 then (p, prev) else (prev, p)) :: loopTris p (i + 1) ps

/-- The triangle list of `make_segmented_star` (lines 79-90): pair consecutive ring
vertices with alternating order, then push a final pair of the first vertex
(the outer `point` binding) and the final `previous` (the last ring vertex). -/
def buildTriangles (points : List Vec2) : List (Vec2 × Vec2) :=
  match points with
  | [] => []
  | p0 :: rest => loopTris p0 0 rest ++ [(p0, rest.getLastD p0)]

/-- `colors.get(i % colors.len()).unwrap_or(&"#ffffff")` (line 101).  When the
palette is empty, `i % 0` is a Rust remainder by zero, which panics: modelled as
`none`.  Otherwise the lookup always succeeds; the `"#ffffff"` fallback of
`unwrap_or` is retained though it is unreachable for a non-empty palette. -/
def wedgeColor (colors : List String) (i : ℕ) : Option String :=
  if colors.length = 0 then none
  else some ((colors.get? (i % colors.length)).getD "#ffffff")

/-- One wedge `Path` (lines 94-104): `move_to v0`, `line_to v1`, `line_to center`,
`close`, with the given fill and no stroke. -/
def mkWedge (center : Vec2) (col : String) (t : Vec2 × Vec2) : SvgPath :=
  { fill := col
    stroke := "none"
    d := [PathCmd.moveTo t.1.x t.1.y, PathCmd.lineTo t.2.x t.2.y,
          PathCmd.lineTo center.x center.y, PathCmd.close] }

/-- The output loop of `make_segmented_star` (lines 92-105), threading the wedge
index: the first empty-palette colour lookup panics, collapsing the result to `none`. -/
def wedgePaths (center : Vec2) (colors : List String) :
    List (Vec2 × Vec2) → ℕ → Option (List SvgPath)
  | [], _ => some []
  | t :: ts, i =>
    match wedgeColor colors i with
    | none => none
    | some col =>
      match wedgePaths center colors ts (i + 1) with
      | none => none
      | some rest => some (mkWedge center col t :: rest)

/-- The wedge list actually produced when the palette is non-empty (so no panic
can occur); used to characterise `wedgePaths`. -/
def wedgeList (center : Vec2) (colors : List String) :
    List (Vec2 × Vec2) → ℕ → List SvgPath
  | [], _ => []
  | t :: ts, i =>
    mkWedge center ((colors.get? (i % colors.length)).getD "#ffffff") t ::
      wedgeList center colors ts (i + 1)

/-- The vertex ring as built by `make_segmented_star`: the multiplier is applied to
the solver's result before forming `inner_pos_start`
(`inner_radius_multiplier * { ... }`), and `spokes - 1` is `usize` subtraction. -/
noncomputable def makeSegmentedStarRing (center : Vec2)
    (outer_radius inner_radius_multiplier : ℝ) (spokes : ℕ) : List Vec2 :=
  let angle := -(2 * Real.pi) / (spokes : ℝ)
  let outer_pos_start : Vec2 := ⟨0, outer_radius⟩
  let inner_radius := inner_radius_multiplier *
    chordInnerRadius angle ((usizeSub1 spokes : ℕ) : ℝ) outer_pos_start
  let inner_pos_start : Vec2 := ⟨0, inner_radius⟩
  ringPoints center angle outer_pos_start inner_pos_start spokes

/-- `make_segmented_star` (lines 51-107): the segmented generator.  `none` models
the Rust panic on an empty palette with at least one wedge. -/
noncomputable def makeSegmentedStar (center : Vec2)
    (outer_radius inner_radius_multiplier : ℝ) (spokes : ℕ)
    (colors : List String) : Option (List SvgPath) :=
  let points := makeSegmentedStarRing center outer_radius inner_radius_multiplier spokes
  wedgePaths center colors (buildTriangles points) 0

/-- Default vector used with `List.getD` in theorem statements. -/
def dvec : Vec2 := ⟨0, 0⟩

/-- Default vertex pair used with `List.getD` in theorem statements. -/
def dpair : Vec2 × Vec2 := (dvec, dvec)

/-- Default path used with `List.getD` in theorem statements. -/
def dpath : SvgPath := ⟨"", "", []⟩

/-! ## Structural lemmas -/

lemma pairRing_zero (f g : ℕ → Vec2) : pairRing f g 0 = [] := by
  simp [pairRing]

lemma pairRing_succ (f g : ℕ → Vec2) (n : ℕ) :
    pairRing f g (n + 1) = pairRing f g n ++ [f n, g n] := by
  simp [pairRing, List.range_succ]

lemma pairRing_length (f g : ℕ → Vec2) (n : ℕ) : (pairRing f g n).length = 2 * n := by
  induction n with
  | zero => simp [pairRing_zero]
  | succ n ih =>
    rw [pairRing_succ]
    simp only [List.length_append, ih, List.length_cons, List.length_nil]
    omega

lemma pairRing_get_even (f g : ℕ → Vec2) (n i : ℕ) (h : i < n) :
    (pairRing f g n).get? (2 * i) = some (f i) := by
  induction n with
  | zero => omega
  | succ n ih =>
    rw [pairRing_succ]
    rcases Nat.lt_or_ge i n with hi | hi
    · have hlen : 2 * i < (pairRing f g n).length := by
        rw [pairRing_length]; omega
      rw [List.get?_append hlen]
      exact ih hi
    · have hin : i = n := by omega
      subst hin
      have hlen : (pairRing f g i).length ≤ 2 * i := by
        rw [pairRing_length]
      rw [List.get?_append_right hlen, pairRing_length]
      simp

lemma pairRing_get_odd (f g : ℕ → Vec2) (n i : ℕ) (h : i < n) :
    (pairRing f g n).get? (2 * i + 1) = some (g i) := by
  induction n with
  | zero => omega
  | succ n ih =>
    rw [pairRing_succ]
    rcases Nat.lt_or_ge i n with hi | hi
    · have hlen : 2 * i + 1 < (pairRing f g n).length := by
        rw [pairRing_length]; omega
      rw [List.get?_append hlen]
      exact ih hi
    · have hin : i = n := by omega
      subst hin
      have hlen : (pairRing f g i).length ≤ 2 * i + 1 := by
        rw [pairRing_length]; omega
      rw [List.get?_append_right hlen, pairRing_length]
      have hidx : 2 * i + 1 - 2 * i = 1 := by omega
      rw [hidx]
      simp

lemma ringPoints_length (c : Vec2) (a : ℝ) (o inn : Vec2) (n : ℕ) :
    (ringPoints c a o inn n).length = 2 * n :=
  pairRing_length _ _ n

lemma loopTris_length (rest : List Vec2) : ∀ (prev : Vec2) (i : ℕ),
    (loopTris prev i rest).length = rest.length := by
  induction rest with
  | nil => intro prev i; rfl
  | cons p ps ih => intro prev i; simp [loopTris, ih]

lemma buildTriangles_length (pts : List Vec2) :
    (buildTriangles pts).length = pts.length := by
  cases pts with
  | nil => rfl
  | cons p0 rest => simp [buildTriangles, loopTris_length]

lemma loopTris_get? (rest : List Vec2) : ∀ (prev : Vec2) (i j : ℕ), j < rest.length →
    (loopTris prev i rest).get? j =
      some (if (i + j) % 2 = 1 then (rest.getD j dvec, (prev :: rest).getD j dvec)
            else ((prev :: rest).getD j dvec, rest.getD j dvec)) := by
  induction rest with
  | nil => intro prev i j h; simp at h
  | cons p ps ih =>
    intro prev i j h
    cases j with
    | zero =>
      simp [loopTris]
    | succ j =>
      have hj : j < ps.length := by simpa using h
      have hstep : (loopTris prev i (p :: ps)).get? (j + 1)
          = (loopTris p (i + 1) ps).get? j := by
        simp [loopTris]
      rw [hstep, ih p (i + 1) j hj]
      have hpar : i + 1 + j = i + (j + 1) := by omega
      rw [hpar]
      simp [List.getD_cons_succ]

lemma buildTriangles_get_loop (p0 : Vec2) (rest : List Vec2) (j : ℕ) (h : j < rest.length) :
    (buildTriangles (p0 :: rest)).get? j =
      some (if j % 2 = 1 then (rest.getD j dvec, (p0 :: rest).getD j dvec)
            else ((p0 :: rest).getD j dvec, rest.getD j dvec)) := by
  have hlen : j < (loopTris p0 0 rest).length := by rw [loopTris_length]; exact h
  rw [buildTriangles, List.get?_append hlen, loopTris_get? rest p0 0 j h]
  simp

lemma buildTriangles_get_last (p0 : Vec2) (rest : List Vec2) :
    (buildTriangles (p0 :: rest)).get? rest.length = some (p0, rest.getLastD p0) := by
  have hlen : (loopTris p0 0 rest).length ≤ rest.length := by rw [loopTris_length]
  rw [buildTriangles, List.get?_append_right hlen, loopTris_length]
  simp

lemma wedgePaths_of_ne (center : Vec2) (colors : List String) (hc : colors ≠ []) :
    ∀ (ts : List (Vec2 × Vec2)) (i : ℕ),
      wedgePaths center colors ts i = some (wedgeList center colors ts i) := by
  have hlen : ¬ colors.length = 0 := by
    simpa [List.length_eq_zero] using hc
  intro ts
  induction ts with
  | nil => intro i; rfl
  | cons t ts ih =>
    intro i
    simp [wedgePaths, wedgeColor, wedgeList, hlen, ih]

lemma wedgePaths_empty_palette (center : Vec2) (t : Vec2 × Vec2)
    (ts : List (Vec2 × Vec2)) (i : ℕ) :
    wedgePaths center [] (t :: ts) i = none := by
  simp [wedgePaths, wedgeColor]

lemma wedgeList_length (center : Vec2) (colors : List String) :
    ∀ (ts : List (Vec2 × Vec2)) (i : ℕ),
      (wedgeList center colors ts i).length = ts.length := by
  intro ts
  induction ts with
  | nil => intro i; rfl
  | cons t ts ih => intro i; simp [wedgeList, ih]

lemma wedgeList_get? (center : Vec2) (colors : List String) :
    ∀ (ts : List (Vec2 × Vec2)) (i j : ℕ), j < ts.length →
      (wedgeList center colors ts i).get? j =
        some (mkWedge center
          ((colors.get? ((i + j) % colors.length)).getD "#ffffff")
          (ts.getD j dpair)) := by
  intro ts
  induction ts with
  | nil => intro i j h; simp at h
  | cons t ts ih =>
    intro i j h
    cases j with
    | zero => simp [wedgeList]
    | succ j =>
      have hj : j < ts.length := by simpa using h
      have hstep : (wedgeList center colors (t :: ts) i).get? (j + 1)
          = (wedgeList center colors ts (i + 1)).get? j := by
        simp [wedgeList]
      rw [hstep, ih (i + 1) j hj]
      have hpar : i + 1 + j = i + (j + 1) := by omega
      rw [hpar]
      simp [List.getD_cons_succ]

lemma wedgeList_mem (center : Vec2) (colors : List String) :
    ∀ (ts : List (Vec2 × Vec2)) (i : ℕ) (p : SvgPath),
      p ∈ wedgeList center colors ts i → ∃ col t, p = mkWedge center col t := by
  intro ts
  induction ts with
  | nil => intro i p hp; simp [wedgeList] at hp
  | cons t ts ih =>
    intro i p hp
    rcases List.mem_cons.mp hp with hp | hp
    · exact ⟨_, _, hp⟩
    · exact ih (i + 1) p hp

lemma rotorApply_zero (v : Vec2) : rotorApply 0 v = v := by
  simp [rotorApply]

lemma chordScale (a s R : ℝ) :
    chordInnerRadius a s ⟨0, R⟩ = R * chordInnerRadius a s ⟨0, 1⟩ := by
  simp only [chordInnerRadius, rotorApply, Vec2.sub, mul_zero, mul_one, zero_add,
    zero_sub, sub_zero]
  rcases eq_or_ne R 0 with hR | hR
  · subst hR; simp
  · have h1 : Real.cos a * R - Real.cos (a * s / -2) * R
        = (Real.cos a - Real.cos (a * s / -2)) * R := by ring
    have h2 : -(Real.sin a * R) - -(Real.sin (a * s / -2) * R)
        = (-Real.sin a - -Real.sin (a * s / -2)) * R := by ring
    rw [h1, h2, mul_div_mul_right _ _ hR]
    ring

lemma makeStarRing_length (center : Vec2) (R m : ℝ) (n : ℕ) :
    (makeStarRing center R m n).length = 2 * n := by
  simp only [makeStarRing]
  exact ringPoints_length _ _ _ _ _

lemma makeSegmentedStarRing_length (center : Vec2) (R m : ℝ) (n : ℕ) :
    (makeSegmentedStarRing center R m n).length = 2 * n := by
  simp only [makeSegmentedStarRing]
  exact ringPoints_length _ _ _ _ _

lemma ring_cons_of_pos (center : Vec2) (R m : ℝ) (n : ℕ) (h : 1 ≤ n) :
    ∃ p0 rest, makeSegmentedStarRing center R m n = p0 :: rest ∧
      rest.length = 2 * n - 1 := by
  have hlen := makeSegmentedStarRing_length center R m n
  cases hring : makeSegmentedStarRing center R m n with
  | nil => rw [hring] at hlen; simp at hlen; omega
  | cons a l =>
    refine ⟨a, l, rfl, ?_⟩
    rw [hring] at hlen
    simp only [List.length_cons] at hlen
    omega

lemma pairRing_two_getD (f g : ℕ → Vec2) :
    (pairRing f g 2).getD 0 dvec = f 0 ∧ (pairRing f g 2).getD 1 dvec = g 0 := by
  have e : pairRing f g 2 = [f 0, g 0, f 1, g 1] := by
    simp [pairRing, List.range_succ]
  rw [e]
  exact ⟨rfl, rfl⟩

lemma chord_at_two :
    chordInnerRadius (-(2 * Real.pi) / ((2 : ℕ) : ℝ)) ((usizeSub1 2 : ℕ) : ℝ)
      ⟨0, 1⟩ = -1 := by
  have hsub : ((usizeSub1 2 : ℕ) : ℝ) = 1 := by norm_num [usizeSub1]
  have hang : -(2 * Real.pi) / ((2 : ℕ) : ℝ) = -Real.pi := by push_cast; ring
  rw [hsub, hang]
  have harg : -Real.pi * 1 / (-2 : ℝ) = Real.pi / 2 := by ring
  simp [chordInnerRadius, rotorApply, Vec2.sub, harg, Real.cos_pi_div_two,
    Real.sin_pi_div_two, Real.cos_neg, Real.sin_neg, Real.cos_pi, Real.sin_pi]

lemma seg_ring_pt0 :
    (makeSegmentedStarRing ⟨0, 0⟩ 1 1 2).getD 0 dvec = ⟨0, -1⟩ := by
  simp only [makeSegmentedStarRing, ringPoints]
  rw [(pairRing_two_getD _ _).1]
  have h0 : -(2 * Real.pi) / ((2 : ℕ) : ℝ) * ((0 : ℕ) : ℝ) = 0 := by push_cast; ring
  rw [h0, rotorApply_zero]
  simp [Vec2.neg, Vec2.add, Vec2.mk.injEq]

lemma seg_ring_pt1 :
    (makeSegmentedStarRing ⟨0, 0⟩ 1 1 2).getD 1 dvec = ⟨-1, 0⟩ := by
  simp only [makeSegmentedStarRing, ringPoints]
  rw [(pairRing_two_getD _ _).2]
  rw [chord_at_two]
  have hth : -(2 * Real.pi) / ((2 : ℕ) : ℝ) * ((0 : ℕ) : ℝ)
      + -(2 * Real.pi) / ((2 : ℕ) : ℝ) / 2 = -(Real.pi / 2) := by push_cast; ring
  rw [hth]
  simp [rotorApply, Vec2.add, Real.cos_neg, Real.sin_neg, Real.cos_pi_div_two,
    Real.sin_pi_div_two, Vec2.mk.injEq]

/-- Observation for the solver's degenerate-chord fragility: in exact arithmetic
the slope divisor `diff.x` of the chord construction vanishes at spoke count 1
(both chord endpoints sit on the vertical axis), so the code's unguarded
division there is a division by zero.  Over the reals this division is total,
so the float-specific infinite/NaN outcome itself is outside this embedding. -/
lemma chord_divisor_zero_at_one :
    ((rotorApply (-(2 * Real.pi) / ((1 : ℕ) : ℝ)) ⟨0, (1 : ℝ)⟩).sub
      (rotorApply (-(2 * Real.pi) / ((1 : ℕ) : ℝ) * ((u32Sub1 1 : ℕ) : ℝ) / -2)
        ⟨0, 1⟩)).x = 0 := by
  have h1 : -(2 * Real.pi) / ((1 : ℕ) : ℝ) = -(2 * Real.pi) := by push_cast; ring
  have hsub : ((u32Sub1 1 : ℕ) : ℝ) = 0 := by norm_num [u32Sub1]
  rw [h1, hsub]
  have h2 : -(2 * Real.pi) * 0 / (-2 : ℝ) = 0 := by ring
  rw [h2, rotorApply_zero]
  simp [rotorApply, Vec2.sub, Real.cos_neg, Real.sin_neg, Real.sin_two_pi,
    Real.cos_two_pi]

/-! ## Claim theorems -/

/-- C1 (amended): walking the segmented generator's vertex ring over each
consecutive pair `(previous, current)` at ring-position `i` (1-indexed from the
second vertex), the emitted triangle is `(previous, current, center)` when `i`
is odd and `(current, previous, center)` when `i` is even (the reverse of the
claimed parity); after the last pair, one final wedge connects the first ring
vertex with the last ring vertex. -/
theorem c1_triangle_order (center : Vec2) (R m : ℝ) (n : ℕ) (h : 1 ≤ n) :
    (∀ i, 1 ≤ i → i ≤ 2 * n - 1 →
      (buildTriangles (makeSegmentedStarRing center R m n)).get? (i - 1)
        = some (if i % 2 = 1
            then ((makeSegmentedStarRing center R m n).getD (i - 1) dvec,
                  (makeSegmentedStarRing center R m n).getD i dvec)
            else ((makeSegmentedStarRing center R m n).getD i dvec,
                  (makeSegmentedStarRing center R m n).getD (i - 1) dvec))) ∧
    (buildTriangles (makeSegmentedStarRing center R m n)).get? (2 * n - 1)
      = some ((makeSegmentedStarRing center R m n).getD 0 dvec,
              (makeSegmentedStarRing center R m n).getD (2 * n - 1) dvec) := by
  obtain ⟨p0, rest, hr, hrl⟩ := ring_cons_of_pos center R m n h
  constructor
  · intro i h1 h2
    have hj : i - 1 < rest.length := by omega
    rw [hr, buildTriangles_get_loop p0 rest (i - 1) hj]
    have hcons : (p0 :: rest).getD i dvec = rest.getD (i - 1) dvec := by
      cases i with
      | zero => omega
      | succ j => simp
    rw [hcons]
    rcases Nat.mod_two_eq_zero_or_one i with hi | hi
    · have hi1 : (i - 1) % 2 = 1 := by omega
      simp [hi, hi1]
    · have hi1 : (i - 1) % 2 = 0 := by omega
      simp [hi, hi1]
  · rw [hr]
    have hbl := buildTriangles_get_last p0 rest
    rw [hrl] at hbl
    have hrne : 1 ≤ rest.length := by omega
    have hlast : rest.getLastD p0 = rest.getD (rest.length - 1) dvec := by
      obtain ⟨x, hx⟩ : ∃ x, rest.get? (rest.length - 1) = some x := by
        have hlt : rest.length - 1 < rest.length := by omega
        exact ⟨rest.get ⟨rest.length - 1, hlt⟩, List.get?_eq_get hlt⟩
      rw [List.getLastD_eq_getLast?, List.getLast?_eq_get?, List.getD_eq_get?, hx]
      rfl
    have hd0 : (p0 :: rest).getD 0 dvec = p0 := rfl
    have hdl : (p0 :: rest).getD (2 * n - 1) dvec = rest.getLastD p0 := by
      have hidx : 2 * n - 1 = (rest.length - 1) + 1 := by omega
      rw [hidx, List.getD_cons_succ, hlast]
    rw [hd0, hdl]
    exact hbl

/-- Witness for C1's amended theorem at one spoke: the final wedge pairs the
first ring vertex with the last. -/
theorem c1_triangle_order_witness :
    1 ≤ 1 ∧
    (buildTriangles (makeSegmentedStarRing ⟨0, 0⟩ 1 1 1)).get? (2 * 1 - 1)
      = some ((makeSegmentedStarRing ⟨0, 0⟩ 1 1 1).getD 0 dvec,
              (makeSegmentedStarRing ⟨0, 0⟩ 1 1 1).getD (2 * 1 - 1) dvec) :=
  ⟨le_refl 1, (c1_triangle_order ⟨0, 0⟩ 1 1 1 (le_refl 1)).2⟩

/-- C1 (counterexample): at `center = (0,0)`, `outer_radius = 1`,
`multiplier = 1`, `spokes = 2`, the pair at ring-position `i = 1` (odd) is NOT
emitted as `(current, previous, center)` as the claim requires: the code emits
`(previous, current, center)` there, and the two ring vertices `(0,-1)` and
`(-1,0)` differ. -/
theorem c1_counterexample :
    (buildTriangles (makeSegmentedStarRing ⟨0, 0⟩ 1 1 2)).get? 0 ≠
      some ((makeSegmentedStarRing ⟨0, 0⟩ 1 1 2).getD 1 dvec,
            (makeSegmentedStarRing ⟨0, 0⟩ 1 1 2).getD 0 dvec) := by
  obtain ⟨p0, rest, hr, hrl⟩ := ring_cons_of_pos ⟨0, 0⟩ 1 1 2 (by norm_num)
  have hj : (0 : ℕ) < rest.length := by omega
  have hget := buildTriangles_get_loop p0 rest 0 hj
  simp only [Nat.zero_mod, List.getD_cons_zero] at hget
  intro hEq
  rw [hr, hget] at hEq
  have e0 : p0 = ⟨0, -1⟩ := by
    have h := seg_ring_pt0
    rw [hr] at h
    simpa using h
  have e1 : rest.getD 0 dvec = ⟨-1, 0⟩ := by
    have h := seg_ring_pt1
    rw [hr] at h
    simpa using h
  rw [e0, e1] at hEq
  simp only [Option.some.injEq, Prod.mk.injEq, Vec2.mk.injEq] at hEq
  norm_num at hEq

/-- C2 (amended): when the segmented generator is called with an empty colour
palette and at least one spoke, it fails rather than emitting fallback-coloured
wedges: the colour lookup computes `i % 0`, a Rust remainder by zero, which
panics before any wedge is produced (modelled as `none`). -/
theorem c2_empty_palette_panics (center : Vec2) (R m : ℝ) (n : ℕ) (h : 1 ≤ n) :
    makeSegmentedStar center R m n [] = none := by
  obtain ⟨p0, rest, hr, _⟩ := ring_cons_of_pos center R m n h
  simp only [makeSegmentedStar]
  rw [hr]
  cases hbt : buildTriangles (p0 :: rest) with
  | nil =>
    have := buildTriangles_length (p0 :: rest)
    rw [hbt] at this
    simp at this
  | cons t ts => exact wedgePaths_empty_palette center t ts 0

/-- Witness for C2's amended theorem at spoke count 1. -/
theorem c2_empty_palette_panics_witness :
    1 ≤ 1 ∧ makeSegmentedStar ⟨0, 0⟩ 45 1.5 1 [] = none :=
  ⟨le_refl 1, c2_empty_palette_panics ⟨0, 0⟩ 45 1.5 1 (le_refl 1)⟩

/-- C2 (counterexample): at the concrete input `center = (0,0)`,
`outer_radius = 45`, `multiplier = 1.5`, `spokes = 5` and an empty palette, the
segmented generator does not emit any fallback-coloured wedges: the run panics
(no result), refuting the claim that it "still emits the full sequence of
wedges" with a fallback fill. -/
theorem c2_counterexample :
    ¬ ∃ out, makeSegmentedStar ⟨0, 0⟩ 45 1.5 5 [] = some out := by
  rintro ⟨out, hout⟩
  obtain ⟨p0, rest, hr, _⟩ := ring_cons_of_pos ⟨0, 0⟩ 45 1.5 5 (by norm_num)
  simp only [makeSegmentedStar] at hout
  rw [hr] at hout
  cases hbt : buildTriangles (p0 :: rest) with
  | nil =>
    have := buildTriangles_length (p0 :: rest)
    rw [hbt] at this
    simp at this
  | cons t ts =>
    rw [hbt, wedgePaths_empty_palette] at hout
    exact Option.noConfusion hout

/-- C4: for every spoke count `n` and non-empty palette, the segmented generator
succeeds and returns exactly `2n` triangles, each of whose path data runs through
the spec's `center` as one of its three vertices. -/
theorem c4_segment_count (center : Vec2) (R m : ℝ) (n : ℕ) (colors : List String)
    (hc : colors ≠ []) :
    ∃ out, makeSegmentedStar center R m n colors = some out ∧
      out.length = 2 * n ∧
      ∀ p ∈ out, PathCmd.lineTo center.x center.y ∈ p.d := by
  refine ⟨wedgeList center colors
    (buildTriangles (makeSegmentedStarRing center R m n)) 0, ?_, ?_, ?_⟩
  · simp only [makeSegmentedStar]
    exact wedgePaths_of_ne center colors hc _ 0
  · rw [wedgeList_length, buildTriangles_length, makeSegmentedStarRing_length]
  · intro p hp
    obtain ⟨col, t, rfl⟩ := wedgeList_mem center colors _ 0 p hp
    simp [mkWedge]

/-- Witness for C4 at the program's own configuration (5 spokes). -/
theorem c4_segment_count_witness :
    (["#fdffe7"] : List String) ≠ [] ∧
    ∃ out, makeSegmentedStar ⟨0, 0⟩ 45 1.5 5 ["#fdffe7"] = some out ∧
      out.length = 2 * 5 ∧
      ∀ p ∈ out, PathCmd.lineTo (Vec2.mk 0 0).x (Vec2.mk 0 0).y ∈ p.d :=
  ⟨by simp, c4_segment_count ⟨0, 0⟩ 45 1.5 5 ["#fdffe7"] (by simp)⟩

/-- C7: with a non-empty palette of length `k`, wedge `i`'s fill is palette entry
`i % k`; in particular with `k = 1` every wedge gets palette entry `0`, and with
`k ≥ 2n` wedge `i` gets the distinct entry `i`. -/
theorem c7_color_cycling (center : Vec2) (R m : ℝ) (n : ℕ) (colors : List String)
    (hc : colors ≠ []) :
    ∃ out, makeSegmentedStar center R m n colors = some out ∧
      (∀ i, i < 2 * n →
        (out.getD i dpath).fill = colors.getD (i % colors.length) "#ffffff") ∧
      (colors.length = 1 → ∀ i, i < 2 * n →
        (out.getD i dpath).fill = colors.getD 0 "#ffffff") ∧
      (2 * n ≤ colors.length → ∀ i, i < 2 * n →
        (out.getD i dpath).fill = colors.getD i "#ffffff") := by
  refine ⟨wedgeList center colors
    (buildTriangles (makeSegmentedStarRing center R m n)) 0, ?_, ?_⟩
  · simp only [makeSegmentedStar]
    exact wedgePaths_of_ne center colors hc _ 0
  have hts : (buildTriangles (makeSegmentedStarRing center R m n)).length = 2 * n := by
    rw [buildTriangles_length, makeSegmentedStarRing_length]
  have hfill : ∀ i, i < 2 * n →
      ((wedgeList center colors
        (buildTriangles (makeSegmentedStarRing center R m n)) 0).getD i dpath).fill
        = colors.getD (i % colors.length) "#ffffff" := by
    intro i hi
    have hget := wedgeList_get? center colors
      (buildTriangles (makeSegmentedStarRing center R m n)) 0 i (by omega)
    rw [List.getD_eq_get?, hget]
    simp [mkWedge, List.getD_eq_get?]
  refine ⟨hfill, ?_, ?_⟩
  · intro h1 i hi
    have := hfill i hi
    rwa [h1, Nat.mod_one] at this
  · intro hk i hi
    have := hfill i hi
    rwa [Nat.mod_eq_of_lt (by omega)] at this

/-- Witness for C7 with the program's 10-entry palette and 5 spokes. -/
theorem c7_color_cycling_witness :
    (["#fdffe7", "#fcfdeb", "#f8d28f", "#fefde8", "#f3d090", "#c89262", "#f5ce8d",
      "#c49963", "url(#gradient1)", "#f8cf90"] : List String) ≠ [] ∧
    ∃ out, makeSegmentedStar ⟨0, 0⟩ 45 1.5 5
        ["#fdffe7", "#fcfdeb", "#f8d28f", "#fefde8", "#f3d090", "#c89262", "#f5ce8d",
         "#c49963", "url(#gradient1)", "#f8cf90"] = some out ∧
      (∀ i, i < 2 * 5 → (out.getD i dpath).fill =
        (["#fdffe7", "#fcfdeb", "#f8d28f", "#fefde8", "#f3d090", "#c89262", "#f5ce8d",
          "#c49963", "url(#gradient1)", "#f8cf90"] : List String).getD
          (i % (["#fdffe7", "#fcfdeb", "#f8d28f", "#fefde8", "#f3d090", "#c89262",
            "#f5ce8d", "#c49963", "url(#gradient1)", "#f8cf90"] : List String).length)
          "#ffffff") ∧
      ((["#fdffe7", "#fcfdeb", "#f8d28f", "#fefde8", "#f3d090", "#c89262", "#f5ce8d",
         "#c49963", "url(#gradient1)", "#f8cf90"] : List String).length = 1 →
        ∀ i, i < 2 * 5 → (out.getD i dpath).fill =
          (["#fdffe7", "#fcfdeb", "#f8d28f", "#fefde8", "#f3d090", "#c89262", "#f5ce8d",
            "#c49963", "url(#gradient1)", "#f8cf90"] : List String).getD 0 "#ffffff") ∧
      (2 * 5 ≤ (["#fdffe7", "#fcfdeb", "#f8d28f", "#fefde8", "#f3d090", "#c89262",
          "#f5ce8d", "#c49963", "url(#gradient1)", "#f8cf90"] : List String).length →
        ∀ i, i < 2 * 5 → (out.getD i dpath).fill =
          (["#fdffe7", "#fcfdeb", "#f8d28f", "#fefde8", "#f3d090", "#c89262", "#f5ce8d",
            "#c49963", "url(#gradient1)", "#f8cf90"] : List String).getD i "#ffffff") :=
  ⟨by simp, c7_color_cycling ⟨0, 0⟩ 45 1.5 5 _ (by simp)⟩

/-- C3: for every spoke count `n ≥ 3`, the outline generator keeps the given
single fill colour, its vertex ring has exactly `2n` vertices with
`ring[2i] = rotate(-outerStart, angle*i) + center` and
`ring[2i+1] = rotate(innerStart, angle*i + angle/2) + center` where
`innerStart = (0, solvedInnerRadius * multiplier)` and `angle = -2*pi/n`, and its
path data is one closed polygon: a move to the first ring vertex, a line to every
later ring vertex, and a single terminating close. -/
theorem c3_outline (center : Vec2) (R m : ℝ) (color : String) (n : ℕ) (h : 3 ≤ n) :
    (makeStar center R m n color).fill = color ∧
    (makeStarRing center R m n).length = 2 * n ∧
    (∀ i, i < n →
      (makeStarRing center R m n).get? (2 * i)
        = some ((rotorApply (-(2 * Real.pi) / (n : ℝ) * (i : ℝ))
            (Vec2.neg ⟨0, R⟩)).add center) ∧
      (makeStarRing center R m n).get? (2 * i + 1)
        = some ((rotorApply (-(2 * Real.pi) / (n : ℝ) * (i : ℝ)
              + -(2 * Real.pi) / (n : ℝ) / 2)
            ⟨0, solveInnerRadius R n * m⟩).add center)) ∧
    (makeStar center R m n color).d
      = PathCmd.moveTo ((makeStarRing center R m n).getD 0 dvec).x
          ((makeStarRing center R m n).getD 0 dvec).y
        :: ((makeStarRing center R m n).drop 1).map (fun p => PathCmd.lineTo p.x p.y)
        ++ [PathCmd.close] := by
  refine ⟨rfl, makeStarRing_length center R m n, ?_, ?_⟩
  · intro i hi
    constructor
    · simp only [makeStarRing, ringPoints]
      exact pairRing_get_even _ _ n i hi
    · simp only [makeStarRing, ringPoints]
      exact pairRing_get_odd _ _ n i hi
  · have hlen := makeStarRing_length center R m n
    obtain ⟨r0, rest, hr⟩ : ∃ r0 rest, makeStarRing center R m n = r0 :: rest := by
      cases hring : makeStarRing center R m n with
      | nil => rw [hring] at hlen; simp at hlen; omega
      | cons a l => exact ⟨a, l, rfl⟩
    show pathData (makeStarRing center R m n) = _
    rw [hr]
    simp [pathData]

/-- Witness for C3 at 3 spokes. -/
theorem c3_outline_witness :
    3 ≤ 3 ∧ (makeStar ⟨0, 0⟩ 45 1.5 3 "#fdffe7").fill = "#fdffe7" ∧
      (makeStarRing ⟨0, 0⟩ 45 1.5 3).length = 2 * 3 :=
  ⟨le_refl 3, (c3_outline ⟨0, 0⟩ 45 1.5 "#fdffe7" 3 (le_refl 3)).1,
    (c3_outline ⟨0, 0⟩ 45 1.5 "#fdffe7" 3 (le_refl 3)).2.1⟩

/-- C5: on identical inputs that fit in a `u32` (so the two generators can in
fact receive the same spoke count), the outline generator and the segmented
generator build exactly the same vertex ring: the outline's
`inner_radius * multiplier` and the segmented generator's
`multiplier * inner_radius` coincide by commutativity, and for `n ≥ 1` the
wrapped `u32` and `usize` computations of `spokes - 1` agree. -/
theorem c5_rings_coincide (center : Vec2) (R m : ℝ) (n : ℕ) (h : n < 4294967296) :
    makeStarRing center R m n = makeSegmentedStarRing center R m n := by
  rcases Nat.eq_zero_or_pos n with h0 | h0
  · subst h0
    simp only [makeStarRing, makeSegmentedStarRing, ringPoints]
    rw [pairRing_zero, pairRing_zero]
  · simp only [makeStarRing, makeSegmentedStarRing, solveInnerRadius]
    have hu : u32Sub1 n = n - 1 := by unfold u32Sub1; omega
    have hs : usizeSub1 n = n - 1 := by unfold usizeSub1; omega
    rw [hu, hs, mul_comm (chordInnerRadius (-(2 * Real.pi) / (n : ℝ))
      (((n - 1 : ℕ) : ℝ)) ⟨0, R⟩) m]

/-- Witness for C5 at 5 spokes. -/
theorem c5_rings_coincide_witness :
    5 < 4294967296 ∧
      makeStarRing ⟨0, 0⟩ 45 1.5 5 = makeSegmentedStarRing ⟨0, 0⟩ 45 1.5 5 :=
  ⟨by norm_num, c5_rings_coincide ⟨0, 0⟩ 45 1.5 5 (by norm_num)⟩

/-- C8: the inner-radius solver is scale-covariant: for a fixed spoke count,
solving at outer radius `c * R` yields `c` times the inner radius solved at `R`,
because the chord-intercept construction is linear in the radius. -/
theorem c8_solver_scale_covariant (spokes : ℕ) (R c : ℝ) (hc : 0 < c) :
    solveInnerRadius (c * R) spokes = c * solveInnerRadius R spokes := by
  simp only [solveInnerRadius]
  rw [chordScale, chordScale (-(2 * Real.pi) / (spokes : ℝ)) ((u32Sub1 spokes : ℕ) : ℝ) R]
  ring

/-- Witness for C8 at 5 spokes, radius 45, scale 2. -/
theorem c8_solver_scale_covariant_witness :
    (0 : ℝ) < 2 ∧ solveInnerRadius (2 * 45) 5 = 2 * solveInnerRadius 45 5 :=
  ⟨by norm_num, c8_solver_scale_covariant 5 45 2 (by norm_num)⟩

/-- C9: the rotation applied by the generators is magnitude-preserving: for every
vector `v` and angle `theta`, `|rotate(v, theta)| = |v|` (exactly, over the reals). -/
theorem c9_rotor_preserves_mag (v : Vec2) (theta : ℝ) :
    (rotorApply theta v).mag = v.mag := by
  simp only [Vec2.mag, rotorApply]
  congr 1
  have h := Real.sin_sq_add_cos_sq theta
  linear_combination (v.x ^ 2 + v.y ^ 2) * h

/-- C10: at spoke count 0 neither generator fails (with release-mode wrapping of
the `spokes - 1` underflow): the outline generator returns a path whose data is
just a close (no moves, no lines), and the segmented generator returns an empty
wedge list even on an empty palette, since the colour remainder is never
evaluated. -/
theorem c10_zero_spokes (center : Vec2) (R m : ℝ) (color : String)
    (colors : List String) :
    makeStar center R m 0 color
      = { fill := color, stroke := "none", d := [PathCmd.close] } ∧
    makeSegmentedStar center R m 0 colors = some [] := by
  constructor
  · simp only [makeStar, makeStarRing, ringPoints]
    rw [pairRing_zero]
    rfl
  · simp only [makeSegmentedStar, makeSegmentedStarRing, ringPoints]
    rw [pairRing_zero]
    rfl

end SvLogo
